import Mathlib

/-!
# Verification of the qwik-optimizer identifier-synthesis core

Shallow embedding of `src/component/id.rs` (struct `Id`: `sanitize`,
`calculate_hash`, `new`), `src/segment.rs` (enum `Segment`) and
`src/component/shared.rs` (enum `Target`), together with theorems about
the naming algorithm.

Machine integers are modelled as `Nat` with explicit reduction modulo
`2^64`.  Rust's `DefaultHasher` is SipHash-1-3 with both keys zero; it is
embedded below as an explicit streaming hasher (state, pending byte
buffer, byte count), exactly mirroring `std::hash::DefaultHasher`'s
`write`/`finish`.  Base64 (URL-safe alphabet, no padding) is embedded for
the 8-byte little-endian digest, followed by the `replace(['-','_'],"0")`
post-processing step from `calculate_hash`.
-/

/-! ## 64-bit arithmetic -/

/-- `2^64`, the modulus for 64-bit wrapping arithmetic. -/
def w64 : Nat := 18446744073709551616

/-- Wrapping 64-bit addition. -/
def add64 (a b : Nat) : Nat := (a + b) % w64

/-- 64-bit left rotation (inputs assumed `< 2^64`). -/
def rotl64 (x n : Nat) : Nat := ((x <<< n) % w64) ||| (x >>> (64 - n))

/-! ## SipHash-1-3 (Rust `std::hash::DefaultHasher`, keys 0,0) -/

/-- The four 64-bit state words of a SipHash state. -/
structure SipState where
  v0 : Nat
  v1 : Nat
  v2 : Nat
  v3 : Nat
deriving Repr, DecidableEq

/-- One SipHash compression round. -/
def sipRound (s : SipState) : SipState :=
  let v0 := add64 s.v0 s.v1
  let v1 := rotl64 s.v1 13
  let v1 := v1 ^^^ v0
  let v0 := rotl64 v0 32
  let v2 := add64 s.v2 s.v3
  let v3 := rotl64 s.v3 16
  let v3 := v3 ^^^ v2
  let v0 := add64 v0 v3
  let v3 := rotl64 v3 21
  let v3 := v3 ^^^ v0
  let v2 := add64 v2 v1
  let v1 := rotl64 v1 17
  let v1 := v1 ^^^ v2
  let v2 := rotl64 v2 32
  ⟨v0, v1, v2, v3⟩

/-- Initial SipHash state for keys `k0 = k1 = 0`
(`DefaultHasher::new()`). -/
def initSip : SipState :=
  ⟨0x736f6d6570736575, 0x646f72616e646f6d, 0x6c7967656e657261, 0x7465646279746573⟩

/-- Absorb one 8-byte message word `m` (SipHash-1-3: one round per word). -/
def processBlock (st : SipState) (m : Nat) : SipState :=
  let st := { st with v3 := st.v3 ^^^ m }
  let st := sipRound st
  { st with v0 := st.v0 ^^^ m }

/-- Value of a byte list read little-endian (first byte least significant). -/
def leVal (l : List Nat) : Nat := l.foldr (fun b acc => b + 256 * acc) 0

/-- Feed input bytes one at a time into the state, buffering them until a
complete 8-byte word is available and then compressing it, exactly the
buffering behaviour of `SipHasher13`'s `tail`/`ntail`.  Returns the final
state and the remaining (fewer than 8) buffered bytes. -/
def feed (st : SipState) (buf : List Nat) : List Nat → SipState × List Nat
  | [] => (st, buf)
  | b :: rest =>
      let buf' := buf ++ [b]
      if buf'.length = 8 then feed (processBlock st (leVal buf')) [] rest
      else feed st buf' rest

/-- Streaming hasher state: SipHash state, pending bytes (fewer than 8 in
any reachable state), and the total byte count, mirroring Rust's
`SipHasher13 { state, tail, ntail, length }`. -/
structure HState where
  st : SipState
  buf : List Nat
  len : Nat
deriving Repr, DecidableEq

/-- `DefaultHasher::new()`. -/
def initHasher : HState := ⟨initSip, [], 0⟩

/-- `Hasher::write`: feed a byte slice into the streaming hasher. -/
def hwrite (h : HState) (bytes : List Nat) : HState :=
  let p := feed h.st h.buf bytes
  ⟨p.1, p.2, h.len + bytes.length⟩

/-- `Hasher::finish`: pad the final block with the length byte, run the
final compression and the three finalization rounds, and XOR the words. -/
def hfinish (h : HState) : Nat :=
  let b := ((h.len % 256) <<< 56) ||| leVal h.buf
  let st := { h.st with v3 := h.st.v3 ^^^ b }
  let st := sipRound st
  let st := { st with v0 := st.v0 ^^^ b }
  let st := { st with v2 := st.v2 ^^^ 0xff }
  let st := sipRound (sipRound (sipRound st))
  st.v0 ^^^ st.v1 ^^^ st.v2 ^^^ st.v3

/-! ## UTF-8 bytes of a string -/

/-- UTF-8 encoding of a single scalar value. -/
def utf8Bytes (c : Char) : List Nat :=
  let n := c.toNat
  if n < 0x80 then [n]
  else if n < 0x800 then
    [0xC0 ||| (n >>> 6), 0x80 ||| (n &&& 0x3F)]
  else if n < 0x10000 then
    [0xE0 ||| (n >>> 12), 0x80 ||| ((n >>> 6) &&& 0x3F), 0x80 ||| (n &&& 0x3F)]
  else
    [0xF0 ||| (n >>> 18), 0x80 ||| ((n >>> 12) &&& 0x3F),
     0x80 ||| ((n >>> 6) &&& 0x3F), 0x80 ||| (n &&& 0x3F)]

/-- The UTF-8 byte sequence of a string (`str::as_bytes`). -/
def strBytes (s : String) : List Nat :=
  s.data.foldr (fun c acc => utf8Bytes c ++ acc) []

/-! ## Base64 (URL-safe alphabet, no padding) -/

/-- The URL-safe base64 alphabet. -/
def b64Alphabet : List Char :=
  [ 'A','B','C','D','E','F','G','H','I','J','K','L','M','N','O','P','Q','R',
    'S','T','U','V','W','X','Y','Z','a','b','c','d','e','f','g','h','i','j',
    'k','l','m','n','o','p','q','r','s','t','u','v','w','x','y','z','0','1',
    '2','3','4','5','6','7','8','9','-','_' ]

/-- Character for a 6-bit group. -/
def b64Char (n : Nat) : Char := b64Alphabet.getD n 'A'

/-- URL-safe, no-padding base64 encoding of a byte list. -/
def b64Encode : List Nat → List Char
  | b0 :: b1 :: b2 :: rest =>
      b64Char (b0 >>> 2) ::
      b64Char (((b0 &&& 3) <<< 4) ||| (b1 >>> 4)) ::
      b64Char (((b1 &&& 15) <<< 2) ||| (b2 >>> 6)) ::
      b64Char (b2 &&& 63) :: b64Encode rest
  | [b0, b1] =>
      [b64Char (b0 >>> 2),
       b64Char (((b0 &&& 3) <<< 4) ||| (b1 >>> 4)),
       b64Char ((b1 &&& 15) <<< 2)]
  | [b0] =>
      [b64Char (b0 >>> 2), b64Char ((b0 &&& 3) <<< 4)]
  | [] => []

/-- `u64::to_le_bytes`. -/
def leBytes8 (n : Nat) : List Nat :=
  [n % 256, (n >>> 8) % 256, (n >>> 16) % 256, (n >>> 24) % 256,
   (n >>> 32) % 256, (n >>> 40) % 256, (n >>> 48) % 256, (n >>> 56) % 256]

/-- Encode the 64-bit digest: base64 of its little-endian bytes, then
replace every `-` and `_` with `0` (`calculate_hash`'s post-processing). -/
def encodeHash (n : Nat) : String :=
  ⟨(b64Encode (leBytes8 n)).map (fun c => if c = '-' ∨ c = '_' then '0' else c)⟩

namespace Qwik

/-! ## The `Id` component (`src/component/id.rs`) -/

/-- `Target` from `src/component/shared.rs`. -/
inductive Target where
  | Prod
  | Lib
  | Dev
  | Test
deriving Repr, DecidableEq

/-- Modelled from the spec: `SourceInfo` is defined outside the given
sources; §6 specifies it as "a relative path string (may or may not carry
a leading `./`) and a base file name string".  `Id::new` reads exactly
these two components (`rel_path.to_string_lossy()` and `file_name`). -/
structure SourceInfo where
  rel_path : String
  file_name : String
deriving Repr, DecidableEq

/-- The synthesized identifier record (struct `Id`). -/
structure Id where
  display_name : String
  symbol_name : String
  local_file_name : String
  hash : String
  scope : Option String
deriving Repr, DecidableEq

/-- `char::is_ascii_alphanumeric`. -/
def isAsciiAlphanumeric (c : Char) : Bool :=
  ('A' ≤ c && c ≤ 'Z') || ('a' ≤ c && c ≤ 'z') || ('0' ≤ c && c ≤ '9')

/-- `char::is_ascii_digit`. -/
def isAsciiDigit (c : Char) : Bool := '0' ≤ c && c ≤ '9'

/-- One step of the `Id::sanitize` fold: the accumulator is the output
so far plus the flag recording whether the last pushed character was an
underscore produced by sanitization. -/
def sanitizeStep (p : List Char × Bool) (c : Char) : List Char × Bool :=
  if isAsciiAlphanumeric c then (p.1 ++ [c], false)
  else if p.2 then (p.1, true)
  else (p.1 ++ ['_'], true)

/-- `Id::sanitize`: replace every character that is not an ASCII letter
or digit with `_`, never pushing consecutive underscores. -/
def Id.sanitize (input : String) : String :=
  ⟨(input.data.foldl sanitizeStep ([], false)).1⟩

/-- `Id::calculate_hash`: optionally feed the scope bytes, then the
(normalized) local file name bytes, then the display name bytes into a
fresh `DefaultHasher`; base64-encode the 64-bit result and substitute
`-`/`_` by `0`. -/
def Id.calculate_hash (local_file_name display_name : String)
    (scope : Option String) : String :=
  let h0 := initHasher
  let h1 := match scope with
    | some s => hwrite h0 (strBytes s)
    | none => h0
  let h2 := hwrite h1 (strBytes local_file_name)
  let h3 := hwrite h2 (strBytes display_name)
  encodeHash (hfinish h3)

/-- One step of the display-name accumulation loop in `Id::new`: if the
accumulated name is empty and the segment starts with an ASCII digit the
segment is prefixed with `_`; otherwise segments are joined with `_`. -/
def displayStep (display_name : String) (segment : String) : String :=
  if display_name = "" ∧ (segment.data.head?.map isAsciiDigit).getD false then
    "_" ++ segment
  else
    (if display_name = "" then "" else display_name ++ "_") ++ segment

/-- The display-name accumulation loop of `Id::new` over all segments. -/
def buildDisplayName (segments : List String) : String :=
  segments.foldl displayStep ""

/-- The sanitized display name `Id::new` computes before prefixing the
file name (the value hashed and used in `Dev`/`Test` symbol names). -/
def assembledDisplayName (segments : List String) : String :=
  Id.sanitize (buildDisplayName segments)

/-- `str::strip_prefix("./")` with `unwrap_or`: drop a leading `./`. -/
def normalizePath (p : String) : String :=
  match p.data with
  | '.' :: '/' :: rest => ⟨rest⟩
  | _ => p

/-- `Id::new`: synthesize the identifier record from a source descriptor,
the segment list, the build target and the optional scope. -/
def Id.new (source_info : SourceInfo) (segments : List String)
    (target : Target) (scope : Option String) : Id :=
  let local_file_name := source_info.rel_path
  let display_name := assembledDisplayName segments
  let normalized_local_file_name := normalizePath local_file_name
  let hash64 := Id.calculate_hash normalized_local_file_name display_name scope
  let symbol_name := match target with
    | Target.Dev | Target.Test => display_name ++ "_" ++ hash64
    | Target.Lib | Target.Prod => "s_" ++ hash64
  let display_name := source_info.file_name ++ "_" ++ display_name
  let local_file_name := local_file_name ++ "_" ++ symbol_name
  ⟨display_name, symbol_name, local_file_name, hash64, scope⟩

/-! ## The `Segment` classifier (`src/segment.rs`) -/

/-- The three segment variants. -/
inductive Segment where
  | Named (s : String)
  | AnonymousCaptured
  | NamedCaptured (s : String)
deriving Repr, DecidableEq

/-- `str::strip_suffix("$")`: `some` of the string without its final
character when that character is `$`, otherwise `none`. -/
def stripDollar (s : String) : Option String :=
  if s.data.getLast? = some '$' then some ⟨s.data.dropLast⟩ else none

/-- `Segment::new`: classify a raw token. -/
def Segment.new (input : String) : Segment :=
  if input = "$" then Segment.AnonymousCaptured
  else
    match stripDollar input with
    | some name => Segment.NamedCaptured name
    | none => Segment.Named input

/-- `Segment::is_qwik`. -/
def Segment.is_qwik : Segment → Bool
  | Segment.Named _ => false
  | Segment.AnonymousCaptured => true
  | Segment.NamedCaptured _ => true

/-- The `Display` implementation for `Segment`. -/
def Segment.render : Segment → String
  | Segment.Named name => name
  | Segment.AnonymousCaptured => ""
  | Segment.NamedCaptured name => name

/-! ## Auxiliary and specification-side definitions used by the theorems -/

/-- The output of the `Id::sanitize` fold as a direct recursion; `flag`
records whether the previously emitted character was a sanitization
underscore (the `uscore` accumulator component of the fold). -/
def sanOut : Bool → List Char → List Char
  | _, [] => []
  | flag, c :: cs =>
    if isAsciiAlphanumeric c then c :: sanOut false cs
    else if flag then sanOut true cs
    else '_' :: sanOut true cs

/-- The final flag of the `Id::sanitize` fold. -/
def sanFlag : Bool → List Char → Bool
  | flag, [] => flag
  | _, c :: cs => if isAsciiAlphanumeric c then sanFlag false cs else sanFlag true cs

/-- Modelled from the spec: per-character replacement of §4 step 2,
"replace every character that is not an ASCII letter or digit with a
single underscore". -/
def replSpec (c : Char) : Char := if isAsciiAlphanumeric c then c else '_'

/-- Modelled from the spec: the run-collapsing part of §4 step 2,
"collapse any run of such replacements into exactly one underscore". -/
def collapseUnderscores : List Char → List Char
  | [] => []
  | [c] => [c]
  | a :: b :: rest =>
    if a = '_' ∧ b = '_' then collapseUnderscores (b :: rest)
    else a :: collapseUnderscores (b :: rest)

/-- No two adjacent underscores occur in the character list. -/
def noDoubleUnderscore : List Char → Bool
  | [] => true
  | [_] => true
  | a :: b :: rest => !(a == '_' && b == '_') && noDoubleUnderscore (b :: rest)

/-- The byte sequence `calculate_hash` feeds for the optional scope:
nothing for `None`, the scope's UTF-8 bytes for `Some`. -/
def optScopeBytes : Option String → List Nat
  | none => []
  | some s => strBytes s

end Qwik

/-! ## Sanitization lemmas -/

/-- `String.data` distributes over append. -/
theorem strDataAppend (a b : String) : (a ++ b).data = a.data ++ b.data := rfl

/-- Underscore is not ASCII-alphanumeric. -/
theorem uscoreNotAlnum : Qwik.isAsciiAlphanumeric '_' = false := by decide

/-- An ASCII digit is ASCII-alphanumeric. -/
theorem digit_alnum (c : Char) (h : Qwik.isAsciiDigit c = true) :
    Qwik.isAsciiAlphanumeric c = true := by
  unfold Qwik.isAsciiDigit at h
  unfold Qwik.isAsciiAlphanumeric
  rw [h]
  simp

/-- An ASCII-alphanumeric character is not an underscore. -/
theorem alnum_ne_uscore (c : Char) (h : Qwik.isAsciiAlphanumeric c = true) : c ≠ '_' := by
  intro he
  rw [he, uscoreNotAlnum] at h
  exact Bool.false_ne_true h

/-- The `Id::sanitize` fold computes `sanOut`/`sanFlag`. -/
theorem foldl_sanitizeStep (l : List Char) :
    ∀ (acc : List Char) (flag : Bool),
      l.foldl Qwik.sanitizeStep (acc, flag) =
        (acc ++ Qwik.sanOut flag l, Qwik.sanFlag flag l) := by
  induction l with
  | nil => intro acc flag; simp [Qwik.sanOut, Qwik.sanFlag]
  | cons c cs ih =>
    intro acc flag
    by_cases h : Qwik.isAsciiAlphanumeric c = true
    · simp [Qwik.sanitizeStep, h, Qwik.sanOut, Qwik.sanFlag, ih]
    · cases flag
      · simp [Qwik.sanitizeStep, h, Qwik.sanOut, Qwik.sanFlag, ih]
      · simp [Qwik.sanitizeStep, h, Qwik.sanOut, Qwik.sanFlag, ih]

/-- `Id::sanitize` in terms of the direct recursion `sanOut`. -/
theorem sanitize_eq (x : String) : Qwik.Id.sanitize x = ⟨Qwik.sanOut false x.data⟩ := by
  unfold Qwik.Id.sanitize
  rw [foldl_sanitizeStep]
  simp

/-- Collapsing a list headed by a non-underscore keeps the head. -/
theorem collapse_cons_ne (c : Char) (t : List Char) (h : c ≠ '_') :
    Qwik.collapseUnderscores (c :: t) = c :: Qwik.collapseUnderscores t := by
  cases t with
  | nil => simp [Qwik.collapseUnderscores]
  | cons b rest =>
    rw [Qwik.collapseUnderscores]
    rw [if_neg]
    intro hc
    exact h hc.1

/-- `sanOut` agrees with the spec-side map-then-collapse description. -/
theorem sanOut_eq_collapse (l : List Char) :
    Qwik.sanOut false l = Qwik.collapseUnderscores (l.map Qwik.replSpec) ∧
    '_' :: Qwik.sanOut true l = Qwik.collapseUnderscores ('_' :: l.map Qwik.replSpec) := by
  induction l with
  | nil => simp [Qwik.sanOut, Qwik.collapseUnderscores]
  | cons c cs ih =>
    by_cases h : Qwik.isAsciiAlphanumeric c = true
    · have hc : c ≠ '_' := alnum_ne_uscore c h
      have hrepl : Qwik.replSpec c = c := by simp [Qwik.replSpec, h]
      constructor
      · rw [List.map_cons, hrepl, collapse_cons_ne c _ hc]
        rw [Qwik.sanOut]
        rw [if_pos h, ih.1]
      · rw [List.map_cons, hrepl]
        rw [Qwik.collapseUnderscores]
        rw [if_neg (fun hp => hc hp.2)]
        rw [collapse_cons_ne c _ hc]
        rw [Qwik.sanOut]
        rw [if_pos h, ih.1]
    · have hrepl : Qwik.replSpec c = '_' := by simp [Qwik.replSpec, h]
      constructor
      · rw [List.map_cons, hrepl]
        rw [Qwik.sanOut]
        rw [if_neg h, if_neg (Bool.false_ne_true)]
        exact ih.2
      · rw [List.map_cons, hrepl]
        rw [show Qwik.collapseUnderscores ('_' :: '_' :: List.map Qwik.replSpec cs) =
            Qwik.collapseUnderscores ('_' :: List.map Qwik.replSpec cs) by
          rw [Qwik.collapseUnderscores]
          rw [if_pos ⟨rfl, rfl⟩]]
        rw [Qwik.sanOut]
        rw [if_neg h, if_pos rfl]
        exact ih.2

/-- `sanOut` with flag `true` never starts with an underscore. -/
theorem sanOut_true_head (l : List Char) :
    ∀ c, (Qwik.sanOut true l).head? = some c → c ≠ '_' := by
  induction l with
  | nil => intro c hc; simp [Qwik.sanOut] at hc
  | cons a as ih =>
    intro c hc
    by_cases h : Qwik.isAsciiAlphanumeric a = true
    · rw [Qwik.sanOut, if_pos h] at hc
      simp at hc
      rw [← hc]
      exact alnum_ne_uscore a h
    · rw [Qwik.sanOut, if_neg h, if_pos rfl] at hc
      exact ih c hc

/-- Prepending a character to a double-underscore-free list keeps it
double-underscore-free when no `__` is created at the junction. -/
theorem noDouble_cons (c : Char) (X : List Char)
    (h : c ≠ '_' ∨ ∀ d, X.head? = some d → d ≠ '_')
    (hX : Qwik.noDoubleUnderscore X = true) :
    Qwik.noDoubleUnderscore (c :: X) = true := by
  cases X with
  | nil => rfl
  | cons b rest =>
    rw [Qwik.noDoubleUnderscore]
    rw [hX]
    have hb : ¬(c = '_' ∧ b = '_') := by
      rcases h with h | h
      · exact fun hp => h hp.1
      · exact fun hp => h b rfl hp.2
    simp only [Bool.and_true]
    simp
    exact not_and_or.mp hb

/-- The sanitize output never contains two adjacent underscores. -/
theorem noDouble_sanOut (l : List Char) :
    ∀ flag, Qwik.noDoubleUnderscore (Qwik.sanOut flag l) = true := by
  induction l with
  | nil => intro flag; rfl
  | cons c cs ih =>
    intro flag
    by_cases h : Qwik.isAsciiAlphanumeric c = true
    · rw [Qwik.sanOut, if_pos h]
      exact noDouble_cons c _ (Or.inl (alnum_ne_uscore c h)) (ih false)
    · cases flag
      · rw [Qwik.sanOut, if_neg h, if_neg (Bool.false_ne_true)]
        exact noDouble_cons '_' _ (Or.inr (sanOut_true_head cs)) (ih true)
      · rw [Qwik.sanOut, if_neg h, if_pos rfl]
        exact ih true

/-- Every character of the sanitize output is fixed by `replSpec`. -/
theorem map_repl_sanOut (l : List Char) :
    ∀ flag, (Qwik.sanOut flag l).map Qwik.replSpec = Qwik.sanOut flag l := by
  induction l with
  | nil => intro flag; rfl
  | cons c cs ih =>
    intro flag
    by_cases h : Qwik.isAsciiAlphanumeric c = true
    · rw [Qwik.sanOut, if_pos h, List.map_cons, ih false]
      simp [Qwik.replSpec, h]
    · cases flag
      · rw [Qwik.sanOut, if_neg h, if_neg (Bool.false_ne_true), List.map_cons, ih true]
        simp [Qwik.replSpec]
      · rw [Qwik.sanOut, if_neg h, if_pos rfl]
        exact ih true

/-- Collapsing is the identity on double-underscore-free lists. -/
theorem collapse_fixed (l : List Char) (h : Qwik.noDoubleUnderscore l = true) :
    Qwik.collapseUnderscores l = l := by
  induction l with
  | nil => rfl
  | cons a t ih =>
    cases t with
    | nil => rfl
    | cons b rest =>
      rw [Qwik.noDoubleUnderscore] at h
      have h1 : ¬(a = '_' ∧ b = '_') := by
        intro hp
        simp [hp.1, hp.2] at h
      have h2 : Qwik.noDoubleUnderscore (b :: rest) = true := by
        simp at h
        exact h.2
      rw [Qwik.collapseUnderscores, if_neg h1, ih h2]

/-! ## Display-name assembly lemmas -/

/-- Once non-empty, the display-name fold only appends to the accumulator. -/
theorem foldl_displayStep_data (ss : List String) :
    ∀ (dn : String), dn.data ≠ [] →
      ∃ r : List Char, (ss.foldl Qwik.displayStep dn).data = dn.data ++ r := by
  induction ss with
  | nil => intro dn _; exact ⟨[], by simp⟩
  | cons s ss ih =>
    intro dn h
    have hne : ¬dn = "" := by
      intro he
      rw [he] at h
      exact h rfl
    have hstep : Qwik.displayStep dn s = dn ++ "_" ++ s := by
      unfold Qwik.displayStep
      rw [if_neg (fun hp => hne hp.1), if_neg hne]
    have hd2 : (Qwik.displayStep dn s).data = dn.data ++ ('_' :: s.data) := by
      rw [hstep, strDataAppend, strDataAppend]
      simp
    obtain ⟨r, hr⟩ := ih (Qwik.displayStep dn s) (by rw [hd2]; simp)
    refine ⟨'_' :: s.data ++ r, ?_⟩
    rw [List.foldl_cons, hr, hd2]
    simp

/-- An ASCII-alphanumeric head character of the built display name
survives sanitization in place: helper evaluating `sanOut` one step. -/
theorem sanOut_cons_alnum (c : Char) (t : List Char)
    (h : Qwik.isAsciiAlphanumeric c = true) :
    Qwik.sanOut false (c :: t) = c :: Qwik.sanOut false t := by
  rw [Qwik.sanOut, if_pos h]

/-- `sanOut` on an underscore followed by an alphanumeric character. -/
theorem sanOut_uscore_alnum (c : Char) (t : List Char)
    (h : Qwik.isAsciiAlphanumeric c = true) :
    Qwik.sanOut false ('_' :: c :: t) = '_' :: c :: Qwik.sanOut false t := by
  rw [Qwik.sanOut, if_neg (by rw [uscoreNotAlnum]; exact Bool.false_ne_true),
    if_neg (Bool.false_ne_true)]
  rw [Qwik.sanOut, if_pos h]

/-! ## Claim C5 / C6: sanitization -/

/-- C5: sanitization replaces each maximal run of consecutive
non-ASCII-alphanumeric characters with exactly one underscore — it equals
the spec-side "replace each bad character, then collapse underscore runs"
description — never emits two consecutive underscores, and maps
`"A123b_c-~45"` to `"A123b_c_45"`. -/
theorem c5_sanitize_collapses_runs :
    (∀ x : String,
        Qwik.Id.sanitize x = ⟨Qwik.collapseUnderscores (x.data.map Qwik.replSpec)⟩) ∧
    (∀ x : String, Qwik.noDoubleUnderscore (Qwik.Id.sanitize x).data = true) ∧
    Qwik.Id.sanitize "A123b_c-~45" = "A123b_c_45" := by
  refine ⟨?_, ?_, by decide⟩
  · intro x
    rw [sanitize_eq]
    exact congrArg String.mk (sanOut_eq_collapse x.data).1
  · intro x
    rw [sanitize_eq]
    exact noDouble_sanOut x.data false

/-- C6: sanitization is idempotent. -/
theorem c6_sanitize_idempotent :
    ∀ x : String, Qwik.Id.sanitize (Qwik.Id.sanitize x) = Qwik.Id.sanitize x := by
  intro x
  rw [sanitize_eq x, sanitize_eq]
  refine congrArg String.mk ?_
  show Qwik.sanOut false (Qwik.sanOut false x.data) = Qwik.sanOut false x.data
  calc Qwik.sanOut false (Qwik.sanOut false x.data)
      = Qwik.collapseUnderscores ((Qwik.sanOut false x.data).map Qwik.replSpec) :=
        (sanOut_eq_collapse (Qwik.sanOut false x.data)).1
    _ = Qwik.collapseUnderscores (Qwik.sanOut false x.data) := by
        rw [map_repl_sanOut]
    _ = Qwik.sanOut false x.data := collapse_fixed _ (noDouble_sanOut x.data false)

/-! ## Claim C4: digit-leading segment guard -/

/-- C4: when the first segment's first character is an ASCII digit the
assembled (sanitized, pre-file-name) display name begins with an
underscore followed by that digit; when the first character is
alphanumeric but not a digit no underscore is inserted and the name
begins with that character; segments `["1","b","c"]` assemble to
`"_1_b_c"`, and a digit-leading segment in non-initial position gets no
extra underscore (`["a","1"]` gives `"a_1"`). -/
theorem c4_digit_guard :
    (∀ (s : String) (ss : List String) (c : Char) (cs : List Char),
        s.data = c :: cs → Qwik.isAsciiDigit c = true →
        (Qwik.assembledDisplayName (s :: ss)).data.take 2 = ['_', c]) ∧
    (∀ (s : String) (ss : List String) (c : Char) (cs : List Char),
        s.data = c :: cs → Qwik.isAsciiAlphanumeric c = true →
        Qwik.isAsciiDigit c = false →
        (Qwik.assembledDisplayName (s :: ss)).data.take 1 = [c]) ∧
    Qwik.assembledDisplayName ["1", "b", "c"] = "_1_b_c" ∧
    Qwik.assembledDisplayName ["a", "1"] = "a_1" := by
  refine ⟨?_, ?_, by decide, by decide⟩
  · intro s ss c cs hdata hdig
    have h0 : Qwik.displayStep "" s = "_" ++ s := by
      unfold Qwik.displayStep
      rw [if_pos ⟨rfl, by rw [hdata]; simp [hdig]⟩]
    have h0data : (Qwik.displayStep "" s).data = '_' :: c :: cs := by
      rw [h0, strDataAppend, hdata]
      rfl
    obtain ⟨r, hr⟩ := foldl_displayStep_data ss (Qwik.displayStep "" s)
      (by rw [h0data]; simp)
    have hb : (Qwik.buildDisplayName (s :: ss)).data = '_' :: c :: (cs ++ r) := by
      unfold Qwik.buildDisplayName
      rw [List.foldl_cons, hr, h0data]
      simp
    have hs : (Qwik.assembledDisplayName (s :: ss)).data =
        Qwik.sanOut false ('_' :: c :: (cs ++ r)) := by
      unfold Qwik.assembledDisplayName
      rw [sanitize_eq, hb]
    rw [hs, sanOut_uscore_alnum c _ (digit_alnum c hdig)]
    rfl
  · intro s ss c cs hdata hal hdig
    have h0 : Qwik.displayStep "" s = s := by
      unfold Qwik.displayStep
      rw [if_neg (by rw [hdata]; simp [hdig]), if_pos rfl]
      rfl
    obtain ⟨r, hr⟩ := foldl_displayStep_data ss (Qwik.displayStep "" s)
      (by rw [h0, hdata]; simp)
    have hb : (Qwik.buildDisplayName (s :: ss)).data = c :: (cs ++ r) := by
      unfold Qwik.buildDisplayName
      rw [List.foldl_cons, hr, h0, hdata]
      simp
    have hs : (Qwik.assembledDisplayName (s :: ss)).data =
        Qwik.sanOut false (c :: (cs ++ r)) := by
      unfold Qwik.assembledDisplayName
      rw [sanitize_eq, hb]
    rw [hs, sanOut_cons_alnum c _ hal]
    rfl

/-- Witness for C4 at segments `["1","b","c"]` and `["a","1"]`. -/
theorem c4_digit_guard_witness :
    (Qwik.assembledDisplayName ["1", "b", "c"]).data.take 2 = ['_', '1'] ∧
    (Qwik.assembledDisplayName ["a", "1"]).data.take 1 = ['a'] :=
  ⟨c4_digit_guard.1 "1" ["b", "c"] '1' [] (by decide) (by decide),
   c4_digit_guard.2.1 "a" ["1"] 'a' [] (by decide) (by decide) (by decide)⟩

/-! ## Claim C7: segment classification -/

/-- C7: classification is total and matches the table: `"$"` is
anonymous-captured (`is_qwik`, renders to `""`); any other token ending
in `"$"` is named-captured with the suffix stripped (`is_qwik`, renders
to the stripped name); any token not ending in `"$"` is named with its
text unchanged (not `is_qwik`); in particular `"onClick$"` and
`"button"`. -/
theorem c7_segment_classification :
    (Qwik.Segment.new "$" = Qwik.Segment.AnonymousCaptured ∧
      (Qwik.Segment.new "$").is_qwik = true ∧
      (Qwik.Segment.new "$").render = "") ∧
    (∀ s : String, s ≠ "$" → s.data.getLast? = some '$' →
      Qwik.Segment.new s = Qwik.Segment.NamedCaptured ⟨s.data.dropLast⟩ ∧
      (Qwik.Segment.new s).is_qwik = true ∧
      (Qwik.Segment.new s).render = ⟨s.data.dropLast⟩) ∧
    (∀ s : String, s.data.getLast? ≠ some '$' →
      Qwik.Segment.new s = Qwik.Segment.Named s ∧
      (Qwik.Segment.new s).is_qwik = false ∧
      (Qwik.Segment.new s).render = s) ∧
    Qwik.Segment.new "onClick$" = Qwik.Segment.NamedCaptured "onClick" ∧
    Qwik.Segment.new "button" = Qwik.Segment.Named "button" := by
  refine ⟨⟨by decide, by decide, by decide⟩, ?_, ?_, by decide, by decide⟩
  · intro s hne hlast
    have hstrip : Qwik.stripDollar s = some ⟨s.data.dropLast⟩ := by
      unfold Qwik.stripDollar
      rw [if_pos hlast]
    have hnew : Qwik.Segment.new s = Qwik.Segment.NamedCaptured ⟨s.data.dropLast⟩ := by
      unfold Qwik.Segment.new
      rw [if_neg hne, hstrip]
    exact ⟨hnew, by rw [hnew]; rfl, by rw [hnew]; rfl⟩
  · intro s hlast
    have hne : s ≠ "$" := by
      intro he
      rw [he] at hlast
      exact hlast rfl
    have hstrip : Qwik.stripDollar s = none := by
      unfold Qwik.stripDollar
      rw [if_neg hlast]
    have hnew : Qwik.Segment.new s = Qwik.Segment.Named s := by
      unfold Qwik.Segment.new
      rw [if_neg hne, hstrip]
    exact ⟨hnew, by rw [hnew]; rfl, by rw [hnew]; rfl⟩

/-- Witness for C7 at tokens `"onClick$"` and `"button"`. -/
theorem c7_segment_classification_witness :
    ((Qwik.Segment.new "onClick$").is_qwik = true ∧
      (Qwik.Segment.new "onClick$").render = ("onClick$".data.dropLast : List Char).asString) ∧
    ((Qwik.Segment.new "button").is_qwik = false ∧
      (Qwik.Segment.new "button").render = "button") := by
  refine ⟨?_, ?_⟩
  · have h := c7_segment_classification.2.1 "onClick$" (by decide) (by decide)
    exact ⟨h.2.1, h.2.2⟩
  · have h := c7_segment_classification.2.2.1 "button" (by decide)
    exact ⟨h.2.1, h.2.2⟩

/-! ## Claim C1: end-to-end scenario A -/

/-- C1 counterexample: in scenario A the `local_file_name` is not
`"app.js_a_b_c_"` followed by the symbol name (that would repeat
`"a_b_c"`); it is `"app.js_"` followed by the symbol name. -/
theorem c1_counterexample :
    (Qwik.Id.new ⟨"app.js", "app.js"⟩ ["a", "b", "c"] Qwik.Target.Dev none).local_file_name ≠
      "app.js_a_b_c_" ++
        (Qwik.Id.new ⟨"app.js", "app.js"⟩ ["a", "b", "c"] Qwik.Target.Dev none).symbol_name := by
  decide

/-- C1 (amended): source file `app.js`, segments `["a","b","c"]`, target
`Dev`, no scope yield `display_name = "app.js_a_b_c"`,
`symbol_name = "a_b_c_" ++ hash-of("app.js","a_b_c",none)`, and
`local_file_name = "app.js_" ++ symbol_name` (equivalently
`"app.js_a_b_c_" ++ hash`). -/
theorem c1_scenario_a :
    Qwik.Id.new ⟨"app.js", "app.js"⟩ ["a", "b", "c"] Qwik.Target.Dev none =
      ⟨"app.js_a_b_c",
       "a_b_c_" ++ Qwik.Id.calculate_hash "app.js" "a_b_c" none,
       "app.js_" ++ ("a_b_c_" ++ Qwik.Id.calculate_hash "app.js" "a_b_c" none),
       Qwik.Id.calculate_hash "app.js" "a_b_c" none,
       none⟩ := by
  decide

/-! ## Claim C8: totality and the empty segment sequence -/

/-- C8 counterexample: with an empty segment sequence the display name is
not just the source file name — it carries a trailing underscore. -/
theorem c8_counterexample :
    (Qwik.Id.new ⟨"app.js", "app.js"⟩ [] Qwik.Target.Dev none).display_name ≠ "app.js" := by
  decide

/-- C8 (amended): synthesis is total by construction, and an empty
segment sequence yields a display name equal to the source file name
followed by an underscore. -/
theorem c8_empty_segments :
    ∀ (src : Qwik.SourceInfo) (t : Qwik.Target) (sc : Option String),
      (Qwik.Id.new src [] t sc).display_name = src.file_name ++ "_" := by
  intro src t sc
  cases t <;>
    simp [Qwik.Id.new, Qwik.assembledDisplayName, Qwik.buildDisplayName,
      Qwik.Id.sanitize, String.append_empty]

/-! ## Claim C9: what the target governs -/

/-- C9 counterexample: the `local_file_name` also depends on the target
(it embeds the symbol name), so the symbol name is not the only
target-dependent part of the `Id`. -/
theorem c9_counterexample :
    (Qwik.Id.new ⟨"app.js", "app.js"⟩ ["a", "b", "c"] Qwik.Target.Dev none).local_file_name ≠
      (Qwik.Id.new ⟨"app.js", "app.js"⟩ ["a", "b", "c"] Qwik.Target.Prod none).local_file_name := by
  decide

/-- C9 (amended): the target affects only the symbol name and, through
it, the local file name (`rel_path ++ "_" ++ symbol_name`); the display
name, hash and scope are target-independent. -/
theorem c9_target_frame :
    (∀ (src : Qwik.SourceInfo) (segs : List String) (sc : Option String)
        (t₁ t₂ : Qwik.Target),
      (Qwik.Id.new src segs t₁ sc).display_name = (Qwik.Id.new src segs t₂ sc).display_name ∧
      (Qwik.Id.new src segs t₁ sc).hash = (Qwik.Id.new src segs t₂ sc).hash ∧
      (Qwik.Id.new src segs t₁ sc).scope = (Qwik.Id.new src segs t₂ sc).scope) ∧
    (∀ (src : Qwik.SourceInfo) (segs : List String) (sc : Option String) (t : Qwik.Target),
      (Qwik.Id.new src segs t sc).local_file_name =
        src.rel_path ++ "_" ++ (Qwik.Id.new src segs t sc).symbol_name) := by
  constructor
  · intro src segs sc t₁ t₂
    cases t₁ <;> cases t₂ <;> exact ⟨rfl, rfl, rfl⟩
  · intro src segs sc t
    cases t <;> rfl

/-! ## Claim C3: target-dependent symbol format -/

/-- Appending the same hash cannot make the two symbol families agree
unless the display name is exactly `"s"`. -/
theorem symbol_families_ne (d h : String) (hd : d ≠ "s") :
    d ++ "_" ++ h ≠ "s_" ++ h := by
  intro he
  apply hd
  have hdata : (d.data ++ ['_']) ++ h.data = (['s'] ++ ['_']) ++ h.data :=
    congrArg String.data he
  have h1 : d.data ++ ['_'] = ['s'] ++ ['_'] := List.append_cancel_right hdata
  have h2 : d.data = ['s'] := List.append_cancel_right h1
  have h3 : d = ⟨['s']⟩ := by
    rw [← h2]
  exact h3.trans (by decide)

/-- C3 counterexample: with segments `["s"]` the sanitized display name
is the non-empty string `"s"`, and the `Dev` and `Prod` symbol names
coincide. -/
theorem c3_counterexample :
    Qwik.assembledDisplayName ["s"] ≠ "" ∧
    (Qwik.Id.new ⟨"app.js", "app.js"⟩ ["s"] Qwik.Target.Dev none).symbol_name =
      (Qwik.Id.new ⟨"app.js", "app.js"⟩ ["s"] Qwik.Target.Prod none).symbol_name := by
  decide

/-- C3 (amended): for fixed segments/path/scope, `Dev` and `Test`
produce `{sanitized display name}_{hash}`, `Lib` and `Prod` produce
`s_{hash}`, and the two families differ whenever the sanitized display
name is not exactly `"s"` (for display name `"s"` they coincide, as the
counterexample shows). -/
theorem c3_symbol_format :
    (∀ (src : Qwik.SourceInfo) (segs : List String) (sc : Option String),
      (Qwik.Id.new src segs Qwik.Target.Dev sc).symbol_name =
        Qwik.assembledDisplayName segs ++ "_" ++ (Qwik.Id.new src segs Qwik.Target.Dev sc).hash ∧
      (Qwik.Id.new src segs Qwik.Target.Test sc).symbol_name =
        Qwik.assembledDisplayName segs ++ "_" ++ (Qwik.Id.new src segs Qwik.Target.Test sc).hash ∧
      (Qwik.Id.new src segs Qwik.Target.Lib sc).symbol_name =
        "s_" ++ (Qwik.Id.new src segs Qwik.Target.Lib sc).hash ∧
      (Qwik.Id.new src segs Qwik.Target.Prod sc).symbol_name =
        "s_" ++ (Qwik.Id.new src segs Qwik.Target.Prod sc).hash) ∧
    (∀ (src : Qwik.SourceInfo) (segs : List String) (sc : Option String),
      Qwik.assembledDisplayName segs ≠ "s" →
      (Qwik.Id.new src segs Qwik.Target.Dev sc).symbol_name ≠
        (Qwik.Id.new src segs Qwik.Target.Prod sc).symbol_name ∧
      (Qwik.Id.new src segs Qwik.Target.Test sc).symbol_name ≠
        (Qwik.Id.new src segs Qwik.Target.Lib sc).symbol_name) := by
  constructor
  · intro src segs sc
    exact ⟨rfl, rfl, rfl, rfl⟩
  · intro src segs sc hne
    exact ⟨symbol_families_ne _ _ hne, symbol_families_ne _ _ hne⟩

/-- Witness for C3 at segments `["a","b","c"]` (display name
`"a_b_c" ≠ "s"`). -/
theorem c3_symbol_format_witness :
    (Qwik.Id.new ⟨"app.js", "app.js"⟩ ["a", "b", "c"] Qwik.Target.Dev none).symbol_name ≠
      (Qwik.Id.new ⟨"app.js", "app.js"⟩ ["a", "b", "c"] Qwik.Target.Prod none).symbol_name :=
  (c3_symbol_format.2 ⟨"app.js", "app.js"⟩ ["a", "b", "c"] none (by decide)).1

/-! ## Claim C10: the hash depends only on the concatenated byte stream -/

/-- Feeding a concatenation equals feeding the parts in sequence. -/
theorem feed_append (a : List Nat) :
    ∀ (b : List Nat) (st : SipState) (buf : List Nat),
      feed st buf (a ++ b) = feed (feed st buf a).1 (feed st buf a).2 b := by
  induction a with
  | nil => intro b st buf; rfl
  | cons x rest ih =>
    intro b st buf
    simp only [List.cons_append, feed]
    by_cases h : (buf ++ [x]).length = 8
    · simp only [if_pos h]
      exact ih b _ _
    · simp only [if_neg h]
      exact ih b _ _

/-- Two consecutive `write`s equal one `write` of the concatenation. -/
theorem hwrite_hwrite (h : HState) (a b : List Nat) :
    hwrite (hwrite h a) b = hwrite h (a ++ b) := by
  simp only [hwrite]
  rw [feed_append]
  simp [Nat.add_assoc]

/-- `calculate_hash` hashes the single concatenated byte stream
`scope-bytes ++ path-bytes ++ display-name-bytes`. -/
theorem calculate_hash_stream (p dn : String) (sc : Option String) :
    Qwik.Id.calculate_hash p dn sc =
      encodeHash (hfinish (hwrite initHasher
        (Qwik.optScopeBytes sc ++ strBytes p ++ strBytes dn))) := by
  cases sc with
  | none =>
    simp only [Qwik.Id.calculate_hash, Qwik.optScopeBytes]
    rw [hwrite_hwrite]
    simp
  | some s =>
    simp only [Qwik.Id.calculate_hash, Qwik.optScopeBytes]
    rw [hwrite_hwrite, hwrite_hwrite, List.append_assoc]

/-- C10: the hash is a function of the concatenation of the scope bytes
(when present), path bytes and display-name bytes, with no separators:
equal concatenations give equal hashes; in particular `None` and
`Some ""` agree for every path and display name, and scope `"ab"` with
path `"c"` agrees with scope `"a"` with path `"bc"`. -/
theorem c10_hash_concatenation :
    (∀ (sc sc' : Option String) (p p' dn dn' : String),
        Qwik.optScopeBytes sc ++ strBytes p ++ strBytes dn =
          Qwik.optScopeBytes sc' ++ strBytes p' ++ strBytes dn' →
        Qwik.Id.calculate_hash p dn sc = Qwik.Id.calculate_hash p' dn' sc') ∧
    (∀ (p dn : String),
        Qwik.Id.calculate_hash p dn none = Qwik.Id.calculate_hash p dn (some "")) ∧
    (∀ (dn : String),
        Qwik.Id.calculate_hash "c" dn (some "ab") =
          Qwik.Id.calculate_hash "bc" dn (some "a")) := by
  refine ⟨?_, ?_, ?_⟩
  · intro sc sc' p p' dn dn' h
    rw [calculate_hash_stream, calculate_hash_stream, h]
  · intro p dn
    rw [calculate_hash_stream, calculate_hash_stream]
    rfl
  · intro dn
    rw [calculate_hash_stream, calculate_hash_stream]
    exact congrArg
      (fun t => encodeHash (hfinish (hwrite initHasher (t ++ strBytes dn))))
      (by decide :
        Qwik.optScopeBytes (some "ab") ++ strBytes "c" =
          Qwik.optScopeBytes (some "a") ++ strBytes "bc")

/-- Witness for C10: concrete equal concatenations with different
splits give the same hash. -/
theorem c10_hash_concatenation_witness :
    Qwik.Id.calculate_hash "c" "x" (some "ab") =
      Qwik.Id.calculate_hash "bc" "x" (some "a") :=
  c10_hash_concatenation.1 (some "ab") (some "a") "c" "bc" "x" "x" (by decide)

/-! ## Supporting computation for the scope-sensitivity example (C2) -/

/-- The concrete scope-sensitivity example from `test_calculate_hash`:
hashing `./app.js` with display name `a_b_c` and no scope gives
`"0RVAWYCCxyk"`, and adding scope `"scope"` changes the hash.  (The
universally quantified form of scope sensitivity is a non-collision
property of the 64-bit fingerprint and is neither provable nor refutable
by an exhibitable instance.) -/
theorem calculate_hash_scope_example :
    Qwik.Id.calculate_hash "./app.js" "a_b_c" none = "0RVAWYCCxyk" ∧
    Qwik.Id.calculate_hash "./app.js" "a_b_c" (some "scope") ≠
      Qwik.Id.calculate_hash "./app.js" "a_b_c" none := by
  decide
